import Mathlib

/-!
Verification of the patch-application algorithm of `src/snapshot/patch_apply.rs`
(the Rojo snapshot patch applier).

The algorithm's own code is translated directly from `patch_apply.rs`.  Its
collaborators — the tree store `RojoTree`, the patch data types from the
`patch` module and the value type `RbxValue` of the `rbx_dom_weak` crate —
live outside the provided source; they are modelled from the specification's
data model (§3) and tree-store contract (§6).  Rust `HashMap`s are modelled as
association lists whose insert replaces an existing binding in place and
appends a fresh one at the end; iteration follows list order (Rust hash-map
iteration order is unspecified, and every iteration in the algorithm commutes
across distinct keys).  Rust's `log::warn!` diagnostic sink is modelled as an
explicit list of diagnostics threaded through the application state, and the
single `expect` panic in `finalize_patch_application` is modelled by an
`Option` result, `none` standing for the abort.
-/

namespace RojoPatchApply

/-! ### Association lists (the model of Rust `HashMap`) -/

/-- First binding of key `k`, like `HashMap::get`. -/
def lookupA {α β : Type} [DecidableEq α] : List (α × β) → α → Option β
  | [], _ => none
  | (k', v) :: rest, k => if k' = k then some v else lookupA rest k

/-- Replace the binding of `k` in place, or append a new one: `HashMap::insert`. -/
def insertA {α β : Type} [DecidableEq α] : List (α × β) → α → β → List (α × β)
  | [], k, v => [(k, v)]
  | (k', v') :: rest, k, v =>
    if k' = k then (k, v) :: rest else (k', v') :: insertA rest k v

/-- Drop every binding of `k`: `HashMap::remove`. -/
def eraseA {α β : Type} [DecidableEq α] : List (α × β) → α → List (α × β)
  | [], _ => []
  | (k', v) :: rest, k => if k' = k then eraseA rest k else (k', v) :: eraseA rest k

/-- The keys of an association list. -/
def keysA {α β : Type} (l : List (α × β)) : List α := l.map Prod.fst

theorem lookupA_insertA_self {α β : Type} [DecidableEq α] (l : List (α × β)) (k : α) (v : β) :
    lookupA (insertA l k v) k = some v := by
  induction l with
  | nil => simp [insertA, lookupA]
  | cons hd tl ih =>
    by_cases h : hd.1 = k
    · simp [insertA, lookupA, h]
    · simp [insertA, lookupA, h, ih]

theorem lookupA_insertA_ne {α β : Type} [DecidableEq α] (l : List (α × β)) {k k' : α} (v : β)
    (h : k ≠ k') : lookupA (insertA l k v) k' = lookupA l k' := by
  induction l with
  | nil => simp [insertA, lookupA, h]
  | cons hd tl ih =>
    by_cases h1 : hd.1 = k
    · simp [insertA, lookupA, h1, h]
    · simp only [insertA, h1, if_false]
      by_cases h2 : hd.1 = k'
      · simp [lookupA, h2]
      · simp [lookupA, h2, ih]

theorem lookupA_eraseA_self {α β : Type} [DecidableEq α] (l : List (α × β)) (k : α) :
    lookupA (eraseA l k) k = none := by
  induction l with
  | nil => simp [eraseA, lookupA]
  | cons hd tl ih =>
    by_cases h : hd.1 = k
    · simp [eraseA, h, ih]
    · simp [eraseA, lookupA, h, ih]

theorem lookupA_eraseA_ne {α β : Type} [DecidableEq α] (l : List (α × β)) {k k' : α}
    (h : k ≠ k') : lookupA (eraseA l k) k' = lookupA l k' := by
  induction l with
  | nil => simp [eraseA]
  | cons hd tl ih =>
    by_cases h1 : hd.1 = k
    · simp [eraseA, lookupA, h1, h, ih]
    · by_cases h2 : hd.1 = k'
      · simp [eraseA, lookupA, h1, h2, Ne.symm h]
      · simp [eraseA, lookupA, h1, h2, ih]

theorem lookupA_eq_none_of_not_mem {α β : Type} [DecidableEq α] (l : List (α × β)) (k : α)
    (h : k ∉ keysA l) : lookupA l k = none := by
  induction l with
  | nil => simp [lookupA]
  | cons hd tl ih =>
    simp only [keysA, List.map_cons, List.mem_cons, not_or] at h
    have h1 : hd.1 ≠ k := fun hc => h.1 hc.symm
    simp only [lookupA, h1, if_false]
    exact ih (by simpa [keysA] using h.2)

theorem mem_keysA_of_lookupA_eq_some {α β : Type} [DecidableEq α] (l : List (α × β)) (k : α)
    (v : β) (h : lookupA l k = some v) : k ∈ keysA l := by
  induction l with
  | nil => simp [lookupA] at h
  | cons hd tl ih =>
    by_cases h1 : hd.1 = k
    · simp [keysA, h1]
    · simp only [lookupA, h1, if_false] at h
      simp [keysA, List.mem_cons]
      right
      simpa [keysA] using ih h

theorem lookupA_isSome_of_mem {α β : Type} [DecidableEq α] (l : List (α × β)) (k : α)
    (h : k ∈ keysA l) : (lookupA l k).isSome := by
  induction l with
  | nil => simp [keysA] at h
  | cons hd tl ih =>
    by_cases h1 : hd.1 = k
    · simp [lookupA, h1]
    · simp only [keysA, List.map_cons, List.mem_cons] at h
      rcases h with h | h
      · exact absurd h.symm h1
      · simp only [lookupA, h1, if_false]
        exact ih (by simpa [keysA] using h)

theorem insertA_of_not_mem {α β : Type} [DecidableEq α] (l : List (α × β)) (k : α) (v : β)
    (h : k ∉ keysA l) : insertA l k v = l ++ [(k, v)] := by
  induction l with
  | nil => simp [insertA]
  | cons hd tl ih =>
    simp only [keysA, List.map_cons, List.mem_cons, not_or] at h
    have h1 : hd.1 ≠ k := fun hc => h.1 hc.symm
    simp only [insertA, h1, if_false, List.cons_append, List.cons.injEq, true_and]
    exact ih (by simpa [keysA] using h.2)

theorem keysA_insertA_of_mem {α β : Type} [DecidableEq α] (l : List (α × β)) (k : α) (v : β)
    (h : k ∈ keysA l) : keysA (insertA l k v) = keysA l := by
  induction l with
  | nil => simp [keysA] at h
  | cons hd tl ih =>
    by_cases h1 : hd.1 = k
    · simp [insertA, keysA, h1]
    · simp only [keysA, List.map_cons, List.mem_cons] at h
      rcases h with h | h
      · exact absurd h.symm h1
      · simp only [insertA, h1, if_false, keysA, List.map_cons, List.cons.injEq, true_and]
        exact ih (by simpa [keysA] using h)

theorem foldl_insertA_of_disjoint {α β : Type} [DecidableEq α] (l : List (α × β)) :
    ∀ acc : List (α × β), (keysA l).Nodup → (∀ k ∈ keysA l, k ∉ keysA acc) →
      l.foldl (fun ps kv => insertA ps kv.1 kv.2) acc = acc ++ l := by
  induction l with
  | nil => intro acc _ _; simp
  | cons hd tl ih =>
    intro acc hnd hdis
    simp only [keysA, List.map_cons, List.nodup_cons] at hnd
    have hhd : hd.1 ∉ keysA acc := hdis hd.1 (by simp [keysA])
    simp only [List.foldl_cons]
    rw [insertA_of_not_mem acc hd.1 hd.2 hhd]
    have step := ih (acc ++ [(hd.1, hd.2)]) hnd.2 ?_
    · simpa using step
    · intro k hk
      have hk' : k ∈ keysA (hd :: tl) := by
        simp only [keysA, List.map_cons, List.mem_cons]
        right
        simpa [keysA] using hk
      have h1 : k ∉ keysA acc := hdis k hk'
      have h2 : k ≠ hd.1 := by
        intro hc
        exact hnd.1 (by simpa [keysA, hc] using hk)
      simp only [keysA, List.map_append, List.mem_append, List.map_cons, List.map_nil,
        List.mem_singleton]
      push_neg
      exact ⟨by simpa [keysA] using h1, h2⟩

/-! ### Data model -/

/-- Modelled from the spec: instance identifiers (`RbxId` of `rbx_dom_weak`) are
opaque unique identifiers; they are modelled as natural numbers, with freshness
obtained by always minting an identifier larger than every identifier in the
tree. -/
abbrev RbxId := Nat

/-- Modelled from the spec: `RbxValue` of `rbx_dom_weak` is a closed tagged
union of primitive property-value kinds, one of which, `ref`, holds either
nothing or an identifier pointing at another tree node.  Two representative
non-reference kinds stand in for the remaining primitive kinds, which the
algorithm treats uniformly. -/
inductive RbxValue where
  | ref (value : Option RbxId)
  | int32 (value : Int)
  | str (value : String)
deriving DecidableEq, Repr

/-- Modelled from the spec: the opaque instance metadata payload owned by the
surrounding system (`InstanceMetadata`); its contents never matter to the
algorithm, so it is modelled as a natural number. -/
abbrev InstanceMetadata := Nat

/-- Modelled from the spec: `RbxInstanceProperties` of `rbx_dom_weak` — name,
class name, and the property mapping of an instance. -/
structure RbxInstanceProperties where
  name : String
  class_name : String
  properties : List (String × RbxValue)
deriving DecidableEq, Repr

/-- Modelled from the spec: `InstancePropertiesWithMeta` — the initial state
handed to the tree store's insert operation: instance properties plus
metadata. -/
structure InstancePropertiesWithMeta where
  properties : RbxInstanceProperties
  metadata : InstanceMetadata
deriving DecidableEq, Repr

/-- Modelled from the spec: a tree node as stored by the tree store — name,
class, property mapping, metadata and the ordered list of child
identifiers. -/
structure TreeInstance where
  name : String
  class_name : String
  properties : List (String × RbxValue)
  metadata : InstanceMetadata
  children : List RbxId
deriving DecidableEq, Repr

/-- Modelled from the spec: the tree store (`RojoTree`, defined in the
repository's tree module, outside the provided source).  It owns the mapping
from identifier to instance; identifier allocation and parent/child indexing
are its responsibility (§6). -/
structure RojoTree where
  instances : List (RbxId × TreeInstance)
deriving DecidableEq, Repr

/-- Look an instance up by identifier (the tree store's `get_instance` /
`get_instance_mut` at the interface level: `some` exactly when present). -/
def RojoTree.get_instance (t : RojoTree) (id : RbxId) : Option TreeInstance :=
  lookupA t.instances id

/-- Modelled from the spec: the tree store mints a new unique identifier on
every insertion; one strictly larger than every identifier present is always
fresh. -/
def RojoTree.freshId (t : RojoTree) : RbxId :=
  (t.instances.map Prod.fst).foldr max 0 + 1

/-- Replace the instance stored under `id` by `f` of it; no change when `id`
is absent. -/
def RojoTree.modify_instance (t : RojoTree) (id : RbxId) (f : TreeInstance → TreeInstance) :
    RojoTree :=
  match lookupA t.instances id with
  | none => t
  | some inst => { instances := insertA t.instances id (f inst) }

/-- The tree node a fresh insertion stores: the given name, class, property
mapping and metadata, and no children yet. -/
def storedInstanceOf (props : InstancePropertiesWithMeta) : TreeInstance :=
  { name := props.properties.name
    class_name := props.properties.class_name
    properties := props.properties.properties
    metadata := props.metadata
    children := [] }

/-- Modelled from the spec: the tree store's insert operation —
`insert(parentId, instanceInitialState) → new unique id` (§6).  The new
instance starts with no children and is appended to its parent's child
list. -/
def RojoTree.insert_instance (t : RojoTree) (props : InstancePropertiesWithMeta)
    (parent_id : RbxId) : RojoTree × RbxId :=
  let id := t.freshId
  let t1 : RojoTree := { instances := t.instances ++ [(id, storedInstanceOf props)] }
  let t2 := t1.modify_instance parent_id (fun p => { p with children := p.children ++ [id] })
  (t2, id)

/-- Worklist collection of an identifier's subtree, with explicit fuel so that
the recursion is structurally terminating even on ill-formed child graphs;
the fuel chosen by `remove_instance` suffices for every well-formed tree. -/
def collectSubtree (t : RojoTree) : Nat → List RbxId → List RbxId → List RbxId
  | 0, _, acc => acc
  | _ + 1, [], acc => acc
  | fuel + 1, i :: rest, acc =>
    if i ∈ acc then collectSubtree t fuel rest acc
    else
      match t.get_instance i with
      | none => collectSubtree t fuel rest acc
      | some inst => collectSubtree t fuel (inst.children ++ rest) (i :: acc)

/-- Fuel that bounds the number of worklist steps a subtree collection can
take on a well-formed tree. -/
def removalFuel (t : RojoTree) : Nat :=
  1 + t.instances.length + (t.instances.map (fun p => p.2.children.length)).sum

/-- Modelled from the spec: the tree store's removal operation —
`remove(id) → boolean existed`, recursively deleting descendants (§6); `none`
when `id` is not in the tree.  Removed identifiers are also dropped from the
child lists of the survivors. -/
def RojoTree.remove_instance (t : RojoTree) (id : RbxId) : Option RojoTree :=
  match t.get_instance id with
  | none => none
  | some _ =>
    let doomed := collectSubtree t (removalFuel t) [id] []
    some
      { instances :=
          (t.instances.filter (fun p => decide (p.1 ∉ doomed))).map
            (fun p =>
              (p.1, { p.2 with children := p.2.children.filter (fun c => decide (c ∉ doomed)) })) }

/-- Modelled from the spec: the tree store's
`update-metadata(id, newMetadata)` operation (§6); metadata is an attribute of
the instance, so updating the metadata of an absent identifier changes no
instance. -/
def RojoTree.update_metadata (t : RojoTree) (id : RbxId) (m : InstanceMetadata) : RojoTree :=
  t.modify_instance id (fun inst => { inst with metadata := m })

/-! ### Patch data types -/

/-- Modelled from the spec: `InstanceSnapshot` — a detached description of a
desired subtree: optional transient snapshot-space identifier, name, class,
property mapping, ordered child snapshots and metadata (§3). -/
structure InstanceSnapshot where
  snapshot_id : Option RbxId
  metadata : InstanceMetadata
  name : String
  class_name : String
  properties : List (String × RbxValue)
  children : List InstanceSnapshot

/-- Modelled from the spec: one addition item of a patch — a parent tree-space
identifier paired with the snapshot to materialize beneath it.  The Rust field
`instance` is spelled `inst` because `instance` is reserved in Lean. -/
structure PatchAdd where
  parent_id : RbxId
  inst : InstanceSnapshot

/-- Modelled from the spec: an update record — target tree-space identifier,
optional new name/class/metadata and a mapping from property key to a
three-state change descriptor: `some v` sets, `none` removes, and absence of
the key means unchanged (§3). -/
structure PatchUpdate where
  id : RbxId
  changed_name : Option String
  changed_class_name : Option String
  changed_properties : List (String × Option RbxValue)
  changed_metadata : Option InstanceMetadata
deriving DecidableEq, Repr

/-- Modelled from the spec: a patch — identifiers to remove, additions, and
update records (§3). -/
structure PatchSet where
  removed_instances : List RbxId
  added_instances : List PatchAdd
  updated_instances : List PatchUpdate

/-- Modelled from the spec: an applied update record mirroring `PatchUpdate`,
holding only what actually took effect, in the same three-state encoding. -/
structure AppliedPatchUpdate where
  id : RbxId
  changed_name : Option String
  changed_class_name : Option String
  changed_properties : List (String × Option RbxValue)
  changed_metadata : Option InstanceMetadata
deriving DecidableEq, Repr

/-- The applied record all of whose optional parts are empty
(`AppliedPatchUpdate::new`). -/
def AppliedPatchUpdate.new (id : RbxId) : AppliedPatchUpdate :=
  { id := id
    changed_name := none
    changed_class_name := none
    changed_properties := []
    changed_metadata := none }

/-- Modelled from the spec: the applied change log — removed identifiers,
added identifiers, applied update records (§3). -/
structure AppliedPatchSet where
  removed : List RbxId
  added : List RbxId
  updated : List AppliedPatchUpdate
deriving DecidableEq, Repr

/-- The empty change log (`AppliedPatchSet::default`). -/
def AppliedPatchSet.default : AppliedPatchSet :=
  { removed := [], added := [], updated := [] }

/-! ### The patch-application algorithm (translated from `patch_apply.rs`) -/

/-- One diagnostic event of the ambient warning sink (`log::warn!`). -/
inductive Diagnostic where
  | removeMissing (id : RbxId)
  | updateMissing (id : RbxId)
deriving DecidableEq, Repr

/-- The ephemeral state needed during application of a patch
(`PatchApplyContext`). -/
structure PatchApplyContext where
  snapshot_id_to_instance_id : List (RbxId × RbxId)
  added_instance_properties : List (RbxId × List (String × RbxValue))
  applied_patch_set : AppliedPatchSet
deriving DecidableEq, Repr

/-- The empty context (`PatchApplyContext::default`). -/
def PatchApplyContext.default : PatchApplyContext :=
  { snapshot_id_to_instance_id := []
    added_instance_properties := []
    applied_patch_set := AppliedPatchSet.default }

/-- The state a patch application threads through its phases: the context, the
borrowed tree, and the diagnostics emitted so far. -/
structure ApplyState where
  context : PatchApplyContext
  tree : RojoTree
  warnings : List Diagnostic
deriving DecidableEq, Repr

/-- Translation of `apply_remove_instance` (`patch_apply.rs:111`). -/
def apply_remove_instance (s : ApplyState) (removed_id : RbxId) : ApplyState :=
  match s.tree.remove_instance removed_id with
  | some t' =>
    { s with
      tree := t'
      context :=
        { s.context with
          applied_patch_set :=
            { s.context.applied_patch_set with
              removed := s.context.applied_patch_set.removed ++ [removed_id] } } }
  | none => { s with warnings := s.warnings ++ [Diagnostic.removeMissing removed_id] }

/-- The initial state handed to the tree store for a snapshot: its name and
class with an empty property mapping — property assignment is deferred — plus
its metadata (`patch_apply.rs:129`). -/
def snapshotInsertProps (snapshot : InstanceSnapshot) : InstancePropertiesWithMeta :=
  { properties :=
      { name := snapshot.name
        class_name := snapshot.class_name
        properties := [] }
    metadata := snapshot.metadata }

/-- The non-recursive prefix of `apply_add_child` (`patch_apply.rs:129-151`):
insert the blank instance, record the minted identifier in the change log,
defer the snapshot's properties, and record the snapshot-id translation.
Returns the updated state and the minted identifier. -/
def addChildBase (s : ApplyState) (parent_id : RbxId) (snapshot : InstanceSnapshot) :
    ApplyState × RbxId :=
  let inserted := s.tree.insert_instance (snapshotInsertProps snapshot) parent_id
  let t1 := inserted.1
  let id := inserted.2
  let ctx1 :=
    { s.context with
      applied_patch_set :=
        { s.context.applied_patch_set with
          added := s.context.applied_patch_set.added ++ [id] }
      added_instance_properties :=
        insertA s.context.added_instance_properties id snapshot.properties }
  let ctx2 :=
    match snapshot.snapshot_id with
    | some sid =>
      { ctx1 with
        snapshot_id_to_instance_id := insertA ctx1.snapshot_id_to_instance_id sid id }
    | none => ctx1
  ({ context := ctx2, tree := t1, warnings := s.warnings }, id)

mutual
/-- Translation of `apply_add_child` (`patch_apply.rs:123`): the non-recursive
prefix, then recursion over the child snapshots in declared order with the
minted identifier as parent. -/
def apply_add_child (s : ApplyState) (parent_id : RbxId) (snapshot : InstanceSnapshot) :
    ApplyState :=
  let b := addChildBase s parent_id snapshot
  apply_add_children b.1 b.2 snapshot.children
termination_by sizeOf snapshot
decreasing_by
  cases snapshot
  simp

/-- The child loop at the end of `apply_add_child` (`patch_apply.rs:153`). -/
def apply_add_children (s : ApplyState) (parent_id : RbxId) :
    List InstanceSnapshot → ApplyState
  | [] => s
  | c :: rest => apply_add_children (apply_add_child s parent_id c) parent_id rest
termination_by cs => sizeOf cs
decreasing_by
  all_goals simp
  all_goals omega
end

/-- The per-descriptor step of the property loop of `apply_update_child`
(`patch_apply.rs:187`): a reference with a present target id is rewritten
through the translation map when the map knows the id, any other set
descriptor is assigned verbatim, and a remove descriptor deletes the key. -/
def applyPropertyEntry (ctx : PatchApplyContext) (props : List (String × RbxValue))
    (key : String) (entry : Option RbxValue) : List (String × RbxValue) :=
  match entry with
  | some (RbxValue.ref (some id)) =>
    let new_id := (lookupA ctx.snapshot_id_to_instance_id id).getD id
    insertA props key (RbxValue.ref (some new_id))
  | some v => insertA props key v
  | none => eraseA props key

/-- Translation of `apply_update_child` (`patch_apply.rs:158`).  Metadata is
updated before the target is fetched, exactly as in the source; a missing
target emits a diagnostic and returns with nothing recorded. -/
def apply_update_child (s : ApplyState) (patch : PatchUpdate) : ApplyState :=
  let applied0 := AppliedPatchUpdate.new patch.id
  let tree1 :=
    match patch.changed_metadata with
    | some m => s.tree.update_metadata patch.id m
    | none => s.tree
  let applied1 :=
    match patch.changed_metadata with
    | some m => { applied0 with changed_metadata := some m }
    | none => applied0
  match tree1.get_instance patch.id with
  | none => { s with tree := tree1, warnings := s.warnings ++ [Diagnostic.updateMissing patch.id] }
  | some inst0 =>
    let inst1 :=
      match patch.changed_name with
      | some n => { inst0 with name := n }
      | none => inst0
    let applied2 :=
      match patch.changed_name with
      | some n => { applied1 with changed_name := some n }
      | none => applied1
    let inst2 :=
      match patch.changed_class_name with
      | some c => { inst1 with class_name := c }
      | none => inst1
    let applied3 :=
      match patch.changed_class_name with
      | some c => { applied2 with changed_class_name := some c }
      | none => applied2
    let folded :=
      patch.changed_properties.foldl
        (fun (acc : List (String × RbxValue) × List (String × Option RbxValue)) kv =>
          (applyPropertyEntry s.context acc.1 kv.1 kv.2, insertA acc.2 kv.1 kv.2))
        (inst2.properties, applied3.changed_properties)
    let inst3 := { inst2 with properties := folded.1 }
    let applied4 := { applied3 with changed_properties := folded.2 }
    let tree2 := tree1.modify_instance patch.id (fun _ => inst3)
    { context :=
        { s.context with
          applied_patch_set :=
            { s.context.applied_patch_set with
              updated := s.context.applied_patch_set.updated ++ [applied4] } }
      tree := tree2
      warnings := s.warnings }

/-- Resolution of one deferred property value at finalization
(`patch_apply.rs:95`): a reference with a present target id found in the
translation map is substituted, everything else passes through unchanged. -/
def resolveDeferredValue (ctx : PatchApplyContext) (v : RbxValue) : RbxValue :=
  match v with
  | RbxValue.ref (some id) =>
    match lookupA ctx.snapshot_id_to_instance_id id with
    | some instance_id => RbxValue.ref (some instance_id)
    | none => v
  | _ => v

/-- The loop of `finalize_patch_application` over the deferred-property store
(`patch_apply.rs:88`); `none` models the `expect` panic on a missing
identifier. -/
def applyDeferredProperties (ctx : PatchApplyContext) (tree : RojoTree) :
    List (RbxId × List (String × RbxValue)) → Option RojoTree
  | [] => some tree
  | (id, properties) :: rest =>
    match tree.get_instance id with
    | none => none
    | some inst =>
      let props' :=
        properties.foldl (fun ps kv => insertA ps kv.1 (resolveDeferredValue ctx kv.2))
          inst.properties
      applyDeferredProperties ctx
        (tree.modify_instance id (fun _ => { inst with properties := props' })) rest

/-- Translation of `finalize_patch_application` (`patch_apply.rs:87`). -/
def finalize_patch_application (context : PatchApplyContext) (tree : RojoTree) :
    Option (RojoTree × AppliedPatchSet) :=
  (applyDeferredProperties context tree context.added_instance_properties).map
    (fun t => (t, context.applied_patch_set))

/-- The state a patch application starts from: default context, the borrowed
tree, no diagnostics. -/
def initialState (tree : RojoTree) : ApplyState :=
  { context := PatchApplyContext.default, tree := tree, warnings := [] }

/-- The removal loop of `apply_patch_set` (`patch_apply.rs:18`). -/
def removalPhase (s : ApplyState) (removed : List RbxId) : ApplyState :=
  removed.foldl apply_remove_instance s

/-- The addition loop of `apply_patch_set` (`patch_apply.rs:22`). -/
def additionPhase (s : ApplyState) (added : List PatchAdd) : ApplyState :=
  added.foldl (fun st a => apply_add_child st a.parent_id a.inst) s

/-- The update loop of `apply_patch_set` (`patch_apply.rs:28`). -/
def updatePhase (s : ApplyState) (updated : List PatchUpdate) : ApplyState :=
  updated.foldl apply_update_child s

/-- Translation of `apply_patch_set` (`patch_apply.rs:15`): removals, then
additions, then updates, then finalization.  The result also carries the
diagnostics emitted along the way; `none` models the only possible abort, the
finalization `expect`. -/
def apply_patch_set (tree : RojoTree) (patch_set : PatchSet) :
    Option (RojoTree × AppliedPatchSet × List Diagnostic) :=
  let s1 := removalPhase (initialState tree) patch_set.removed_instances
  let s2 := additionPhase s1 patch_set.added_instances
  let s3 := updatePhase s2 patch_set.updated_instances
  (finalize_patch_application s3.context s3.tree).map (fun r => (r.1, r.2, s3.warnings))

/-! ### Further association-list lemmas -/

theorem lookupA_append {α β : Type} [DecidableEq α] (l l' : List (α × β)) (k : α) :
    lookupA (l ++ l') k =
      match lookupA l k with
      | some v => some v
      | none => lookupA l' k := by
  induction l with
  | nil => simp [lookupA]
  | cons hd tl ih =>
    by_cases h : hd.1 = k
    · simp [lookupA, h]
    · simp [lookupA, h, ih]

theorem mem_keysA_insertA {α β : Type} [DecidableEq α] (l : List (α × β)) (k a : α) (v : β)
    (h : a ∈ keysA (insertA l k v)) : a ∈ keysA l ∨ a = k := by
  induction l with
  | nil =>
    simp only [insertA, keysA, List.map_cons, List.map_nil, List.mem_singleton] at h
    exact Or.inr h
  | cons hd tl ih =>
    by_cases h1 : hd.1 = k
    · simp only [insertA, h1, if_true, keysA, List.map_cons, List.mem_cons] at h
      rcases h with h | h
      · exact Or.inr h
      · exact Or.inl (by simp [keysA, List.mem_cons]; right; simpa [keysA] using h)
    · simp only [insertA, h1, if_false, keysA, List.map_cons, List.mem_cons] at h
      rcases h with h | h
      · exact Or.inl (by simp [keysA, h])
      · rcases ih (by simpa [keysA] using h) with h' | h'
        · exact Or.inl (by simp [keysA, List.mem_cons]; right; simpa [keysA] using h')
        · exact Or.inr h'

/-! ### Tree-store lemmas -/

theorem get_modify_self (t : RojoTree) (id : RbxId) (f : TreeInstance → TreeInstance) :
    (t.modify_instance id f).get_instance id = (t.get_instance id).map f := by
  unfold RojoTree.modify_instance RojoTree.get_instance
  cases h : lookupA t.instances id with
  | none => simp [h]
  | some inst => simp [h, lookupA_insertA_self]

theorem get_modify_ne (t : RojoTree) (id id' : RbxId) (f : TreeInstance → TreeInstance)
    (h : id ≠ id') : (t.modify_instance id f).get_instance id' = t.get_instance id' := by
  unfold RojoTree.modify_instance RojoTree.get_instance
  cases h1 : lookupA t.instances id with
  | none => simp
  | some inst => simp [lookupA_insertA_ne _ _ h]

theorem modify_of_missing (t : RojoTree) (id : RbxId) (f : TreeInstance → TreeInstance)
    (h : t.get_instance id = none) : t.modify_instance id f = t := by
  unfold RojoTree.modify_instance
  unfold RojoTree.get_instance at h
  simp [h]

theorem get_modify_isSome (t : RojoTree) (id id' : RbxId) (f : TreeInstance → TreeInstance)
    (h : (t.get_instance id').isSome) : ((t.modify_instance id f).get_instance id').isSome := by
  by_cases he : id = id'
  · subst he
    rw [get_modify_self]
    simpa using h
  · rw [get_modify_ne _ _ _ _ he]
    exact h

theorem keysA_modify (t : RojoTree) (id : RbxId) (f : TreeInstance → TreeInstance) :
    keysA (t.modify_instance id f).instances = keysA t.instances := by
  unfold RojoTree.modify_instance
  cases h : lookupA t.instances id with
  | none => simp
  | some inst =>
    simp only
    exact keysA_insertA_of_mem _ _ _ (mem_keysA_of_lookupA_eq_some _ _ _ h)

theorem le_foldr_max (l : List Nat) (a : Nat) (h : a ∈ l) : a ≤ l.foldr max 0 := by
  induction l with
  | nil => simp at h
  | cons hd tl ih =>
    rcases List.mem_cons.mp h with h | h
    · subst h; simp [List.foldr]
    · simp only [List.foldr]
      exact le_trans (ih h) (Nat.le_max_right _ _)

theorem mem_lt_freshId (t : RojoTree) (a : RbxId) (h : a ∈ keysA t.instances) : a < t.freshId := by
  have hle := le_foldr_max (t.instances.map Prod.fst) a (by simpa [keysA] using h)
  exact Nat.lt_succ_of_le hle

theorem freshId_not_mem (t : RojoTree) : t.freshId ∉ keysA t.instances := by
  intro h
  exact absurd rfl (Nat.ne_of_lt (mem_lt_freshId t _ h))

theorem foldr_max_append_singleton (l : List Nat) (a : Nat) :
    (l ++ [a]).foldr max 0 = max (l.foldr max 0) a := by
  induction l with
  | nil => simp [List.foldr, Nat.max_comm]
  | cons hd tl ih => simp [List.foldr, ih, Nat.max_assoc]

theorem foldr_max_le (l : List Nat) (b : Nat) (h : ∀ a ∈ l, a ≤ b) : l.foldr max 0 ≤ b := by
  induction l with
  | nil => simp
  | cons hd tl ih =>
    simp only [List.foldr]
    exact Nat.max_le.mpr ⟨h hd (by simp), ih (fun a ha => h a (by simp [ha]))⟩

theorem keysA_insert (t : RojoTree) (props : InstancePropertiesWithMeta) (p : RbxId) :
    keysA (t.insert_instance props p).1.instances = keysA t.instances ++ [t.freshId] := by
  unfold RojoTree.insert_instance
  simp only
  rw [keysA_modify]
  simp [keysA]

theorem freshId_insert (t : RojoTree) (props : InstancePropertiesWithMeta) (p : RbxId) :
    (t.insert_instance props p).1.freshId = t.freshId + 1 := by
  have hkeys := keysA_insert t props p
  have heq : ∀ u : RojoTree, u.freshId = (keysA u.instances).foldr max 0 + 1 := fun _ => rfl
  rw [heq, hkeys, foldr_max_append_singleton]
  have hle : (keysA t.instances).foldr max 0 ≤ t.freshId := by
    apply foldr_max_le
    intro a ha
    exact Nat.le_of_lt (mem_lt_freshId t a ha)
  rw [Nat.max_eq_right hle]

theorem insert_instance_snd (t : RojoTree) (props : InstancePropertiesWithMeta) (p : RbxId) :
    (t.insert_instance props p).2 = t.freshId := rfl

theorem get_insert_self_isSome (t : RojoTree) (props : InstancePropertiesWithMeta) (p : RbxId) :
    ((t.insert_instance props p).1.get_instance t.freshId).isSome := by
  unfold RojoTree.insert_instance
  simp only
  apply get_modify_isSome
  unfold RojoTree.get_instance
  rw [lookupA_append]
  cases h : lookupA t.instances t.freshId with
  | none => simp [lookupA]
  | some v => simp

theorem get_insert_fresh (t : RojoTree) (props : InstancePropertiesWithMeta) (p : RbxId)
    (hp : p ∈ keysA t.instances) :
    (t.insert_instance props p).1.get_instance t.freshId = some (storedInstanceOf props) := by
  unfold RojoTree.insert_instance
  simp only
  rw [get_modify_ne _ _ _ _ (Nat.ne_of_lt (mem_lt_freshId t p hp))]
  unfold RojoTree.get_instance
  rw [lookupA_append]
  rw [lookupA_eq_none_of_not_mem _ _ (freshId_not_mem t)]
  simp [lookupA]

theorem get_insert_other (t : RojoTree) (props : InstancePropertiesWithMeta) (p id' : RbxId)
    (hne : id' ≠ t.freshId) (hp : p ≠ id') :
    (t.insert_instance props p).1.get_instance id' = t.get_instance id' := by
  unfold RojoTree.insert_instance
  simp only
  rw [get_modify_ne _ _ _ _ hp]
  unfold RojoTree.get_instance
  rw [lookupA_append]
  cases h : lookupA t.instances id' with
  | none => simp [lookupA, Ne.symm hne]
  | some v => simp

theorem get_insert_isSome (t : RojoTree) (props : InstancePropertiesWithMeta) (p id' : RbxId)
    (h : (t.get_instance id').isSome) :
    ((t.insert_instance props p).1.get_instance id').isSome := by
  unfold RojoTree.insert_instance
  simp only
  apply get_modify_isSome
  unfold RojoTree.get_instance
  rw [lookupA_append]
  unfold RojoTree.get_instance at h
  cases h1 : lookupA t.instances id' with
  | none => rw [h1] at h; simp at h
  | some v => simp

/-! ### Characterization of the update step -/

/-- The tree as it stands when `apply_update_child` fetches its target: the
input tree with the metadata change (if any) already applied, since the source
updates metadata before checking that the target exists. -/
def metaTree (s : ApplyState) (patch : PatchUpdate) : RojoTree :=
  match patch.changed_metadata with
  | some m => s.tree.update_metadata patch.id m
  | none => s.tree

/-- The instance an update leaves behind: name and class overwritten when
requested, and the property mapping folded through the change descriptors. -/
def finalUpdatedInstance (ctx : PatchApplyContext) (patch : PatchUpdate)
    (inst0 : TreeInstance) : TreeInstance :=
  { inst0 with
    name := patch.changed_name.getD inst0.name
    class_name := patch.changed_class_name.getD inst0.class_name
    properties :=
      patch.changed_properties.foldl
        (fun ps kv => applyPropertyEntry ctx ps kv.1 kv.2) inst0.properties }

/-- The applied-update record an update pushes when its target exists: every
field of the request copied over, the property descriptors re-inserted into a
fresh mapping. -/
def requestedAppliedUpdate (patch : PatchUpdate) : AppliedPatchUpdate :=
  { id := patch.id
    changed_name := patch.changed_name
    changed_class_name := patch.changed_class_name
    changed_properties :=
      patch.changed_properties.foldl (fun ac kv => insertA ac kv.1 kv.2) []
    changed_metadata := patch.changed_metadata }

theorem update_fold_split (ctx : PatchApplyContext) (l : List (String × Option RbxValue))
    (ps : List (String × RbxValue)) (ac : List (String × Option RbxValue)) :
    l.foldl
        (fun (acc : List (String × RbxValue) × List (String × Option RbxValue)) kv =>
          (applyPropertyEntry ctx acc.1 kv.1 kv.2, insertA acc.2 kv.1 kv.2)) (ps, ac) =
      (l.foldl (fun ps kv => applyPropertyEntry ctx ps kv.1 kv.2) ps,
        l.foldl (fun ac kv => insertA ac kv.1 kv.2) ac) := by
  induction l generalizing ps ac with
  | nil => rfl
  | cons hd tl ih => simp [List.foldl_cons, ih]

theorem apply_update_child_of_missing (s : ApplyState) (patch : PatchUpdate)
    (h : (metaTree s patch).get_instance patch.id = none) :
    apply_update_child s patch =
      { s with
        tree := metaTree s patch
        warnings := s.warnings ++ [Diagnostic.updateMissing patch.id] } := by
  obtain ⟨pid, cn, ccn, cp, cm⟩ := patch
  cases cm with
  | none =>
    simp only [metaTree] at h ⊢
    simp [apply_update_child, h]
  | some m =>
    simp only [metaTree] at h ⊢
    simp [apply_update_child, h]

theorem apply_update_child_of_found (s : ApplyState) (patch : PatchUpdate)
    (inst0 : TreeInstance)
    (h : (metaTree s patch).get_instance patch.id = some inst0) :
    apply_update_child s patch =
      { context :=
          { s.context with
            applied_patch_set :=
              { s.context.applied_patch_set with
                updated :=
                  s.context.applied_patch_set.updated ++ [requestedAppliedUpdate patch] } }
        tree :=
          (metaTree s patch).modify_instance patch.id
            (fun _ => finalUpdatedInstance s.context patch inst0)
        warnings := s.warnings } := by
  obtain ⟨pid, cn, ccn, cp, cm⟩ := patch
  cases cm <;> cases cn <;> cases ccn <;>
    · simp only [metaTree] at h ⊢
      simp [apply_update_child, h, update_fold_split, finalUpdatedInstance,
        requestedAppliedUpdate, AppliedPatchUpdate.new]

theorem metaTree_of_missing (s : ApplyState) (patch : PatchUpdate)
    (h : s.tree.get_instance patch.id = none) : metaTree s patch = s.tree := by
  cases hm : patch.changed_metadata with
  | none => simp [metaTree, hm]
  | some m =>
    simp only [metaTree, hm, RojoTree.update_metadata]
    exact modify_of_missing _ _ _ h

/-! ### Pointwise description of the two property folds -/

/-- What one change descriptor leaves under its own key: the reference
rewrite for a present-id reference, the verbatim value otherwise, and
deletion for a remove descriptor. -/
def descriptorOutcome (ctx : PatchApplyContext) (entry : Option RbxValue) : Option RbxValue :=
  match entry with
  | some (RbxValue.ref (some id)) =>
    some (RbxValue.ref (some ((lookupA ctx.snapshot_id_to_instance_id id).getD id)))
  | some v => some v
  | none => none

theorem lookupA_applyPropertyEntry_self (ctx : PatchApplyContext)
    (props : List (String × RbxValue)) (k : String) (entry : Option RbxValue) :
    lookupA (applyPropertyEntry ctx props k entry) k = descriptorOutcome ctx entry := by
  rcases entry with _ | v
  · simp [applyPropertyEntry, descriptorOutcome, lookupA_eraseA_self]
  · rcases v with ov | n | sv
    · rcases ov with _ | i
      · simp [applyPropertyEntry, descriptorOutcome, lookupA_insertA_self]
      · simp [applyPropertyEntry, descriptorOutcome, lookupA_insertA_self]
    · simp [applyPropertyEntry, descriptorOutcome, lookupA_insertA_self]
    · simp [applyPropertyEntry, descriptorOutcome, lookupA_insertA_self]

theorem lookupA_applyPropertyEntry_ne (ctx : PatchApplyContext)
    (props : List (String × RbxValue)) (k k' : String) (entry : Option RbxValue)
    (h : k ≠ k') :
    lookupA (applyPropertyEntry ctx props k entry) k' = lookupA props k' := by
  rcases entry with _ | v
  · simp [applyPropertyEntry, lookupA_eraseA_ne _ h]
  · rcases v with ov | n | sv
    · rcases ov with _ | i
      · simp [applyPropertyEntry, lookupA_insertA_ne _ _ h]
      · simp [applyPropertyEntry, lookupA_insertA_ne _ _ h]
    · simp [applyPropertyEntry, lookupA_insertA_ne _ _ h]
    · simp [applyPropertyEntry, lookupA_insertA_ne _ _ h]

theorem lookupA_foldl_applyProps_not_mem (ctx : PatchApplyContext)
    (l : List (String × Option RbxValue)) (props : List (String × RbxValue)) (k : String)
    (h : k ∉ keysA l) :
    lookupA (l.foldl (fun ps kv => applyPropertyEntry ctx ps kv.1 kv.2) props) k =
      lookupA props k := by
  induction l generalizing props with
  | nil => simp
  | cons hd tl ih =>
    simp only [keysA, List.map_cons, List.mem_cons, not_or] at h
    simp only [List.foldl_cons]
    rw [ih _ (by simpa [keysA] using h.2)]
    exact lookupA_applyPropertyEntry_ne _ _ _ _ _ (fun hc => h.1 hc.symm)

theorem lookupA_foldl_applyProps (ctx : PatchApplyContext)
    (l : List (String × Option RbxValue)) (props : List (String × RbxValue)) (k : String)
    (entry : Option RbxValue) (hnd : (keysA l).Nodup) (h : lookupA l k = some entry) :
    lookupA (l.foldl (fun ps kv => applyPropertyEntry ctx ps kv.1 kv.2) props) k =
      descriptorOutcome ctx entry := by
  induction l generalizing props with
  | nil => simp [lookupA] at h
  | cons hd tl ih =>
    simp only [keysA, List.map_cons, List.nodup_cons] at hnd
    by_cases h1 : hd.1 = k
    · simp only [lookupA, h1, if_true] at h
      subst h1
      simp only [List.foldl_cons]
      rw [lookupA_foldl_applyProps_not_mem _ _ _ _ (by simpa [keysA] using hnd.1)]
      have hent : hd.2 = entry := Option.some.inj h
      subst hent
      exact lookupA_applyPropertyEntry_self _ _ _ _
    · simp only [lookupA, h1, if_false] at h
      simp only [List.foldl_cons]
      exact ih _ (by simpa [keysA] using hnd.2) h

theorem lookupA_foldl_resolve_not_mem (ctx : PatchApplyContext)
    (dl : List (String × RbxValue)) (props : List (String × RbxValue)) (k : String)
    (h : k ∉ keysA dl) :
    lookupA (dl.foldl (fun ps kv => insertA ps kv.1 (resolveDeferredValue ctx kv.2)) props) k =
      lookupA props k := by
  induction dl generalizing props with
  | nil => simp
  | cons hd tl ih =>
    simp only [keysA, List.map_cons, List.mem_cons, not_or] at h
    simp only [List.foldl_cons]
    rw [ih _ (by simpa [keysA] using h.2)]
    exact lookupA_insertA_ne _ _ (fun hc => h.1 hc.symm)

theorem lookupA_foldl_resolve (ctx : PatchApplyContext) (dl : List (String × RbxValue))
    (props : List (String × RbxValue)) (k : String) (v : RbxValue)
    (hnd : (keysA dl).Nodup) (h : lookupA dl k = some v) :
    lookupA (dl.foldl (fun ps kv => insertA ps kv.1 (resolveDeferredValue ctx kv.2)) props) k =
      some (resolveDeferredValue ctx v) := by
  induction dl generalizing props with
  | nil => simp [lookupA] at h
  | cons hd tl ih =>
    simp only [keysA, List.map_cons, List.nodup_cons] at hnd
    by_cases h1 : hd.1 = k
    · simp only [lookupA, h1, if_true] at h
      subst h1
      simp only [List.foldl_cons]
      rw [lookupA_foldl_resolve_not_mem _ _ _ _ (by simpa [keysA] using hnd.1)]
      have hent : hd.2 = v := Option.some.inj h
      subst hent
      exact lookupA_insertA_self _ _ _
    · simp only [lookupA, h1, if_false] at h
      simp only [List.foldl_cons]
      exact ih _ (by simpa [keysA] using hnd.2) h

/-! ### The addition phase: minted identifiers and the added log -/

theorem addChildBase_snd (s : ApplyState) (p : RbxId) (snap : InstanceSnapshot) :
    (addChildBase s p snap).2 = s.tree.freshId := by
  cases hsid : snap.snapshot_id <;> simp [addChildBase, hsid, insert_instance_snd]

theorem addChildBase_tree (s : ApplyState) (p : RbxId) (snap : InstanceSnapshot) :
    (addChildBase s p snap).1.tree = (s.tree.insert_instance (snapshotInsertProps snap) p).1 := by
  cases hsid : snap.snapshot_id <;> simp [addChildBase, hsid]

theorem addChildBase_warnings (s : ApplyState) (p : RbxId) (snap : InstanceSnapshot) :
    (addChildBase s p snap).1.warnings = s.warnings := by
  cases hsid : snap.snapshot_id <;> simp [addChildBase, hsid]

theorem addChildBase_added (s : ApplyState) (p : RbxId) (snap : InstanceSnapshot) :
    (addChildBase s p snap).1.context.applied_patch_set.added =
      s.context.applied_patch_set.added ++ [s.tree.freshId] := by
  cases hsid : snap.snapshot_id <;> simp [addChildBase, hsid, insert_instance_snd]

theorem addChildBase_removed (s : ApplyState) (p : RbxId) (snap : InstanceSnapshot) :
    (addChildBase s p snap).1.context.applied_patch_set.removed =
      s.context.applied_patch_set.removed := by
  cases hsid : snap.snapshot_id <;> simp [addChildBase, hsid]

theorem addChildBase_updated (s : ApplyState) (p : RbxId) (snap : InstanceSnapshot) :
    (addChildBase s p snap).1.context.applied_patch_set.updated =
      s.context.applied_patch_set.updated := by
  cases hsid : snap.snapshot_id <;> simp [addChildBase, hsid]

theorem addChildBase_props (s : ApplyState) (p : RbxId) (snap : InstanceSnapshot) :
    (addChildBase s p snap).1.context.added_instance_properties =
      insertA s.context.added_instance_properties s.tree.freshId snap.properties := by
  cases hsid : snap.snapshot_id <;> simp [addChildBase, hsid, insert_instance_snd]

theorem addChildBase_map_none (s : ApplyState) (p : RbxId) (snap : InstanceSnapshot)
    (hsid : snap.snapshot_id = none) :
    (addChildBase s p snap).1.context.snapshot_id_to_instance_id =
      s.context.snapshot_id_to_instance_id := by
  simp [addChildBase, hsid]

theorem addChildBase_map_some (s : ApplyState) (p : RbxId) (snap : InstanceSnapshot)
    (sid : RbxId) (hsid : snap.snapshot_id = some sid) :
    (addChildBase s p snap).1.context.snapshot_id_to_instance_id =
      insertA s.context.snapshot_id_to_instance_id sid s.tree.freshId := by
  simp [addChildBase, hsid, insert_instance_snd]

mutual
/-- Number of tree nodes a snapshot materializes: itself plus its
descendants. -/
def snapshotSize (s : InstanceSnapshot) : Nat := 1 + snapshotListSize s.children
termination_by sizeOf s
decreasing_by
  cases s
  simp

/-- Total node count of a list of snapshots. -/
def snapshotListSize : List InstanceSnapshot → Nat
  | [] => 0
  | c :: cs => snapshotSize c + snapshotListSize cs
termination_by cs => sizeOf cs
decreasing_by
  all_goals simp
  all_goals omega
end

mutual
/-- The identifiers a depth-first preorder traversal mints for a snapshot when
the next fresh identifier is `n`: the snapshot's own identifier first, then
the blocks of its children in declared order. -/
def preorderMint (n : RbxId) (s : InstanceSnapshot) : List RbxId :=
  n :: preorderMintList (n + 1) s.children
termination_by sizeOf s
decreasing_by
  cases s
  simp

/-- The identifier blocks of a list of sibling snapshots, in declared order. -/
def preorderMintList (n : RbxId) : List InstanceSnapshot → List RbxId
  | [] => []
  | c :: cs => preorderMint n c ++ preorderMintList (n + snapshotSize c) cs
termination_by cs => sizeOf cs
decreasing_by
  all_goals simp
  all_goals omega
end

mutual
theorem add_child_fresh_added (s : ApplyState) (p : RbxId) (snap : InstanceSnapshot) :
    (apply_add_child s p snap).tree.freshId = s.tree.freshId + snapshotSize snap ∧
    (apply_add_child s p snap).context.applied_patch_set.added =
      s.context.applied_patch_set.added ++ preorderMint s.tree.freshId snap := by
  obtain ⟨hf, ha⟩ :=
    add_children_fresh_added (addChildBase s p snap).1 (addChildBase s p snap).2 snap.children
  rw [addChildBase_tree] at hf ha
  rw [freshId_insert] at hf ha
  rw [addChildBase_added] at ha
  refine ⟨?_, ?_⟩
  · simp only [apply_add_child]
    rw [hf]
    simp only [snapshotSize]
    rw [Nat.add_assoc]
  · simp only [apply_add_child]
    rw [ha]
    simp only [preorderMint]
    rw [List.append_assoc]
    rfl
termination_by sizeOf snap
decreasing_by
  cases snap
  simp

theorem add_children_fresh_added (s : ApplyState) (p : RbxId) (cs : List InstanceSnapshot) :
    (apply_add_children s p cs).tree.freshId = s.tree.freshId + snapshotListSize cs ∧
    (apply_add_children s p cs).context.applied_patch_set.added =
      s.context.applied_patch_set.added ++ preorderMintList s.tree.freshId cs := by
  match cs with
  | [] => simp [apply_add_children, snapshotListSize, preorderMintList]
  | c :: rest =>
    obtain ⟨hf1, ha1⟩ := add_child_fresh_added s p c
    obtain ⟨hf2, ha2⟩ := add_children_fresh_added (apply_add_child s p c) p rest
    rw [hf1] at hf2
    rw [ha1, hf1] at ha2
    refine ⟨?_, ?_⟩
    · simp only [apply_add_children]
      rw [hf2]
      simp only [snapshotListSize]
      rw [Nat.add_assoc]
    · simp only [apply_add_children]
      rw [ha2]
      simp only [preorderMintList]
      rw [List.append_assoc]
termination_by sizeOf cs
decreasing_by
  all_goals simp
  all_goals omega
end

/-! ### Totality: every deferred identifier exists at finalization -/

/-- Every key of the deferred-property store has an instance in the tree. -/
def DeferredOk (s : ApplyState) : Prop :=
  ∀ id ∈ keysA s.context.added_instance_properties, (s.tree.get_instance id).isSome

mutual
theorem add_child_isSome (s : ApplyState) (p : RbxId) (snap : InstanceSnapshot) :
    (∀ id', (s.tree.get_instance id').isSome →
        ((apply_add_child s p snap).tree.get_instance id').isSome) ∧
    (∀ id ∈ keysA (apply_add_child s p snap).context.added_instance_properties,
        id ∈ keysA s.context.added_instance_properties ∨
          ((apply_add_child s p snap).tree.get_instance id).isSome) := by
  obtain ⟨hm, hk⟩ :=
    add_children_isSome (addChildBase s p snap).1 (addChildBase s p snap).2 snap.children
  refine ⟨?_, ?_⟩
  · intro id' h
    simp only [apply_add_child]
    apply hm
    rw [addChildBase_tree]
    exact get_insert_isSome _ _ _ _ h
  · intro id hid
    simp only [apply_add_child] at hid ⊢
    rcases hk id hid with hmem | hs
    · rw [addChildBase_props] at hmem
      rcases mem_keysA_insertA _ _ _ _ hmem with hmem' | heq
      · exact Or.inl hmem'
      · right
        subst heq
        apply hm
        rw [addChildBase_tree]
        exact get_insert_self_isSome _ _ _
    · exact Or.inr hs
termination_by sizeOf snap
decreasing_by
  cases snap
  simp

theorem add_children_isSome (s : ApplyState) (p : RbxId) (cs : List InstanceSnapshot) :
    (∀ id', (s.tree.get_instance id').isSome →
        ((apply_add_children s p cs).tree.get_instance id').isSome) ∧
    (∀ id ∈ keysA (apply_add_children s p cs).context.added_instance_properties,
        id ∈ keysA s.context.added_instance_properties ∨
          ((apply_add_children s p cs).tree.get_instance id).isSome) := by
  match cs with
  | [] =>
    simp only [apply_add_children]
    exact ⟨fun _ h => h, fun id h => Or.inl h⟩
  | c :: rest =>
    obtain ⟨hm1, hk1⟩ := add_child_isSome s p c
    obtain ⟨hm2, hk2⟩ := add_children_isSome (apply_add_child s p c) p rest
    refine ⟨?_, ?_⟩
    · intro id' h
      simp only [apply_add_children]
      exact hm2 id' (hm1 id' h)
    · intro id hid
      simp only [apply_add_children] at hid ⊢
      rcases hk2 id hid with hmem | hs
      · rcases hk1 id hmem with hmem' | hs'
        · exact Or.inl hmem'
        · exact Or.inr (hm2 id hs')
      · exact Or.inr hs
termination_by sizeOf cs
decreasing_by
  all_goals simp
  all_goals omega
end

theorem apply_remove_instance_props (s : ApplyState) (id : RbxId) :
    (apply_remove_instance s id).context.added_instance_properties =
      s.context.added_instance_properties := by
  unfold apply_remove_instance
  cases h : s.tree.remove_instance id <;> simp

theorem removalPhase_props (s : ApplyState) (ids : List RbxId) :
    (removalPhase s ids).context.added_instance_properties =
      s.context.added_instance_properties := by
  induction ids generalizing s with
  | nil => rfl
  | cons hd tl ih =>
    simp only [removalPhase, List.foldl_cons]
    rw [show List.foldl apply_remove_instance (apply_remove_instance s hd) tl =
      removalPhase (apply_remove_instance s hd) tl from rfl]
    rw [ih]
    exact apply_remove_instance_props s hd

theorem metaTree_isSome (s : ApplyState) (u : PatchUpdate) (id' : RbxId)
    (h : (s.tree.get_instance id').isSome) : ((metaTree s u).get_instance id').isSome := by
  cases hm : u.changed_metadata with
  | none => simpa [metaTree, hm] using h
  | some m =>
    simp only [metaTree, hm, RojoTree.update_metadata]
    exact get_modify_isSome _ _ _ _ h

theorem apply_update_child_props (s : ApplyState) (u : PatchUpdate) :
    (apply_update_child s u).context.added_instance_properties =
      s.context.added_instance_properties := by
  cases h : (metaTree s u).get_instance u.id with
  | none => rw [apply_update_child_of_missing s u h]
  | some inst0 => rw [apply_update_child_of_found s u inst0 h]

theorem apply_update_child_isSome (s : ApplyState) (u : PatchUpdate) (id' : RbxId)
    (h : (s.tree.get_instance id').isSome) :
    ((apply_update_child s u).tree.get_instance id').isSome := by
  cases hg : (metaTree s u).get_instance u.id with
  | none =>
    rw [apply_update_child_of_missing s u hg]
    exact metaTree_isSome s u id' h
  | some inst0 =>
    rw [apply_update_child_of_found s u inst0 hg]
    exact get_modify_isSome _ _ _ _ (metaTree_isSome s u id' h)

theorem updatePhase_deferredOk (ups : List PatchUpdate) :
    ∀ s : ApplyState, DeferredOk s → DeferredOk (updatePhase s ups) := by
  induction ups with
  | nil => intro s h; exact h
  | cons hd tl ih =>
    intro s h
    simp only [updatePhase, List.foldl_cons]
    apply ih
    intro id hid
    rw [apply_update_child_props] at hid
    exact apply_update_child_isSome s hd id (h id hid)

theorem additionPhase_deferredOk (adds : List PatchAdd) :
    ∀ s : ApplyState, DeferredOk s → DeferredOk (additionPhase s adds) := by
  induction adds with
  | nil => intro s h; exact h
  | cons hd tl ih =>
    intro s h
    simp only [additionPhase, List.foldl_cons]
    apply ih
    intro id hid
    rcases (add_child_isSome s hd.parent_id hd.inst).2 id hid with hmem | hs
    · exact (add_child_isSome s hd.parent_id hd.inst).1 id (h id hmem)
    · exact hs

theorem applyDeferredProperties_isSome (ctx : PatchApplyContext)
    (entries : List (RbxId × List (String × RbxValue))) :
    ∀ tree : RojoTree, (∀ id ∈ keysA entries, (tree.get_instance id).isSome) →
      (applyDeferredProperties ctx tree entries).isSome := by
  induction entries with
  | nil => intro tree _; simp [applyDeferredProperties]
  | cons hd tl ih =>
    intro tree h
    obtain ⟨hid, hprops⟩ := hd
    have h0 : (tree.get_instance hid).isSome := h hid (by simp [keysA])
    obtain ⟨inst, hinst⟩ := Option.isSome_iff_exists.mp h0
    simp only [applyDeferredProperties, hinst]
    apply ih
    intro id hmem
    apply get_modify_isSome
    exact h id (by simp [keysA]; right; simpa [keysA] using hmem)

theorem finalize_isSome (ctx : PatchApplyContext) (tree : RojoTree)
    (h : ∀ id ∈ keysA ctx.added_instance_properties, (tree.get_instance id).isSome) :
    (finalize_patch_application ctx tree).isSome := by
  unfold finalize_patch_application
  have hs := applyDeferredProperties_isSome ctx ctx.added_instance_properties tree h
  obtain ⟨t', ht'⟩ := Option.isSome_iff_exists.mp hs
  simp [ht']

/-- The state the three mutation phases of `apply_patch_set` produce, in their
strict order: removals, then additions, then updates. -/
def phasePipeline (t : RojoTree) (p : PatchSet) : ApplyState :=
  updatePhase (additionPhase (removalPhase (initialState t) p.removed_instances)
    p.added_instances) p.updated_instances

theorem apply_patch_set_eq_pipeline (t : RojoTree) (p : PatchSet) :
    apply_patch_set t p =
      (finalize_patch_application (phasePipeline t p).context (phasePipeline t p).tree).map
        (fun r => (r.1, r.2, (phasePipeline t p).warnings)) := rfl

theorem pipeline_deferredOk (t : RojoTree) (p : PatchSet) : DeferredOk (phasePipeline t p) := by
  unfold phasePipeline
  apply updatePhase_deferredOk
  apply additionPhase_deferredOk
  intro id hid
  rw [removalPhase_props] at hid
  simp [initialState, PatchApplyContext.default, keysA] at hid

theorem pipeline_finalize_isSome (t : RojoTree) (p : PatchSet) :
    (finalize_patch_application (phasePipeline t p).context (phasePipeline t p).tree).isSome :=
  finalize_isSome _ _ (pipeline_deferredOk t p)

theorem apply_patch_set_isSome (t : RojoTree) (p : PatchSet) :
    (apply_patch_set t p).isSome := by
  rw [apply_patch_set_eq_pipeline]
  obtain ⟨r, hr⟩ := Option.isSome_iff_exists.mp (pipeline_finalize_isSome t p)
  simp [hr]

theorem applyDeferredProperties_nil (ctx : PatchApplyContext) (tree : RojoTree) :
    applyDeferredProperties ctx tree [] = some tree := rfl

theorem applyDeferredProperties_cons (ctx : PatchApplyContext) (tree : RojoTree)
    (id : RbxId) (properties : List (String × RbxValue))
    (rest : List (RbxId × List (String × RbxValue))) (inst : TreeInstance)
    (h : tree.get_instance id = some inst) :
    applyDeferredProperties ctx tree ((id, properties) :: rest) =
      applyDeferredProperties ctx
        (tree.modify_instance id (fun _ =>
          { inst with
            properties :=
              properties.foldl
                (fun ps kv => insertA ps kv.1 (resolveDeferredValue ctx kv.2))
                inst.properties }))
        rest := by
  simp only [applyDeferredProperties, h]

/-- The addition phase handles a childless snapshot entirely in its
non-recursive prefix. -/
theorem apply_add_child_nil (s : ApplyState) (p : RbxId) (snap : InstanceSnapshot)
    (h : snap.children = []) : apply_add_child s p snap = (addChildBase s p snap).1 := by
  simp only [apply_add_child, h, apply_add_children]

/-! ### Concrete fixtures used by witnesses and counterexamples -/

/-- A bare single-instance tree used by several concrete scenarios. -/
def plainInstance : TreeInstance :=
  { name := "X"
    class_name := "Folder"
    properties := []
    metadata := 0
    children := [] }

/-- A one-instance tree whose root has identifier 1. -/
def oneTree : RojoTree := { instances := [(1, plainInstance)] }

/-- An application state over `oneTree` whose translation map sends snapshot
id 5 to tree id 9. -/
def mapState : ApplyState :=
  { context :=
      { snapshot_id_to_instance_id := [(5, 9)]
        added_instance_properties := []
        applied_patch_set := AppliedPatchSet.default }
    tree := oneTree
    warnings := [] }

/-- An update request against instance 1 that sets property `K` to a
reference whose target id 5 is in the translation map. -/
def refUpdate : PatchUpdate :=
  { id := 1
    changed_name := none
    changed_class_name := none
    changed_properties := [("K", some (RbxValue.ref (some 5)))]
    changed_metadata := none }

/-- The applied-update record `refUpdate` produces: the requested descriptor
verbatim, reference id 5 not substituted. -/
def refUpdateRecord : AppliedPatchUpdate :=
  { id := 1
    changed_name := none
    changed_class_name := none
    changed_properties := [("K", some (RbxValue.ref (some 5)))]
    changed_metadata := none }

/-! ### The claims -/

/-- C2: an update record whose target tree-space identifier has no instance in
the tree is skipped entirely — the tree (metadata included) is unchanged, the
context (and hence the change log) is unchanged, and exactly one diagnostic is
emitted. -/
theorem update_missing_target_skipped (s : ApplyState) (patch : PatchUpdate)
    (h : s.tree.get_instance patch.id = none) :
    apply_update_child s patch =
      { s with warnings := s.warnings ++ [Diagnostic.updateMissing patch.id] } := by
  have hmeta := metaTree_of_missing s patch h
  have h' : (metaTree s patch).get_instance patch.id = none := by rw [hmeta]; exact h
  rw [apply_update_child_of_missing s patch h', hmeta]

/-- Witness for C2 at a concrete input: updating absent id 7 in a
one-instance tree leaves the state unchanged except for one diagnostic. -/
def missUpdate : PatchUpdate :=
  { id := 7
    changed_name := some "N"
    changed_class_name := some "C"
    changed_properties := [("K", none)]
    changed_metadata := some 3 }

theorem update_missing_target_skipped_witness :
    apply_update_child mapState missUpdate =
      { mapState with
        warnings := mapState.warnings ++ [Diagnostic.updateMissing missUpdate.id] } :=
  update_missing_target_skipped mapState missUpdate (by decide)

/-- C5: a removal whose target exists removes it and appends the identifier to
the change log's removed list; a removal whose target is absent leaves the
state unchanged except for exactly one diagnostic, does not fail, and the
identifier never reaches the removed list. -/
theorem remove_logged_or_skipped (s : ApplyState) (id : RbxId) :
    ((s.tree.get_instance id).isSome →
      apply_remove_instance s id =
        { s with
          tree := (s.tree.remove_instance id).getD s.tree
          context :=
            { s.context with
              applied_patch_set :=
                { s.context.applied_patch_set with
                  removed := s.context.applied_patch_set.removed ++ [id] } } }) ∧
    (s.tree.get_instance id = none →
      apply_remove_instance s id =
        { s with warnings := s.warnings ++ [Diagnostic.removeMissing id] }) := by
  constructor
  · intro h
    obtain ⟨inst, hinst⟩ := Option.isSome_iff_exists.mp h
    have hrem : ∃ t', s.tree.remove_instance id = some t' := by
      unfold RojoTree.remove_instance
      rw [hinst]
      exact ⟨_, rfl⟩
    obtain ⟨t', ht'⟩ := hrem
    unfold apply_remove_instance
    rw [ht']
    simp
  · intro h
    have hnone : s.tree.remove_instance id = none := by
      unfold RojoTree.remove_instance
      rw [h]
    unfold apply_remove_instance
    rw [hnone]

theorem remove_logged_or_skipped_witness :
    (apply_remove_instance mapState 1 =
      { mapState with
        tree := (mapState.tree.remove_instance 1).getD mapState.tree
        context :=
          { mapState.context with
            applied_patch_set :=
              { mapState.context.applied_patch_set with
                removed := mapState.context.applied_patch_set.removed ++ [1] } } }) ∧
    (apply_remove_instance mapState 9 =
      { mapState with warnings := mapState.warnings ++ [Diagnostic.removeMissing 9] }) :=
  ⟨(remove_logged_or_skipped mapState 1).1 (by decide),
    (remove_logged_or_skipped mapState 9).2 (by decide)⟩

/-- C3 counterexample: with translation map sending 5 to 9, an update that
sets `K` to a reference to 5 writes the substituted reference to 9 onto the
instance, yet the applied-update record keeps the unsubstituted reference to
5 — so the record does not mirror the descriptor that was applied once a
reference substitution occurred. -/
theorem applied_record_not_substituted_cex :
    ((apply_update_child mapState refUpdate).tree.get_instance 1).map
        (fun i => lookupA i.properties "K") = some (some (RbxValue.ref (some 9))) ∧
    (apply_update_child mapState refUpdate).context.applied_patch_set.updated =
      [refUpdateRecord] ∧
    (some (RbxValue.ref (some 5)) : Option RbxValue) ≠ some (RbxValue.ref (some 9)) := by
  refine ⟨by decide, by decide, by decide⟩

/-- C3 amended: for every update record whose target instance exists (and
whose descriptor keys are unique, as they are for a hash map), the
applied-update record pushed into the change log mirrors the requested
descriptor exactly — same three-state encoding, removals included — with any
reference id kept as requested, not as substituted. -/
theorem applied_update_record_mirrors_request (s : ApplyState) (patch : PatchUpdate)
    (inst0 : TreeInstance) (h : (metaTree s patch).get_instance patch.id = some inst0)
    (hnd : (keysA patch.changed_properties).Nodup) :
    (apply_update_child s patch).context.applied_patch_set.updated =
      s.context.applied_patch_set.updated ++
        [{ id := patch.id
           changed_name := patch.changed_name
           changed_class_name := patch.changed_class_name
           changed_properties := patch.changed_properties
           changed_metadata := patch.changed_metadata }] := by
  rw [apply_update_child_of_found s patch inst0 h]
  simp only [requestedAppliedUpdate]
  rw [foldl_insertA_of_disjoint _ _ hnd (fun k _ => by simp [keysA])]
  simp

theorem applied_update_record_mirrors_request_witness :
    (apply_update_child mapState refUpdate).context.applied_patch_set.updated =
      mapState.context.applied_patch_set.updated ++
        [{ id := refUpdate.id
           changed_name := refUpdate.changed_name
           changed_class_name := refUpdate.changed_class_name
           changed_properties := refUpdate.changed_properties
           changed_metadata := refUpdate.changed_metadata }] :=
  applied_update_record_mirrors_request mapState refUpdate plainInstance (by decide) (by decide)

/-- C6: during the update phase, a descriptor that sets a reference with a
present target id writes the translation-map image of the id when the map
knows it and the unmodified id otherwise; a non-reference set is assigned
verbatim; a remove descriptor deletes the key. -/
theorem update_descriptor_outcome (s : ApplyState) (patch : PatchUpdate)
    (inst0 : TreeInstance) (k : String) (entry : Option RbxValue)
    (h : (metaTree s patch).get_instance patch.id = some inst0)
    (hnd : (keysA patch.changed_properties).Nodup)
    (hk : lookupA patch.changed_properties k = some entry) :
    ((apply_update_child s patch).tree.get_instance patch.id).map
        (fun i => lookupA i.properties k) =
      some (match entry with
        | some (RbxValue.ref (some i)) =>
          some (RbxValue.ref (some ((lookupA s.context.snapshot_id_to_instance_id i).getD i)))
        | some v => some v
        | none => none) := by
  rw [apply_update_child_of_found s patch inst0 h]
  simp only
  rw [get_modify_self, h]
  simp only [Option.map_some', finalUpdatedInstance]
  rw [lookupA_foldl_applyProps s.context patch.changed_properties inst0.properties k entry
    hnd hk]
  rcases entry with _ | v
  · rfl
  · rcases v with ov | n | sv
    · rcases ov with _ | i <;> rfl
    · rfl
    · rfl

theorem update_descriptor_outcome_witness :
    ((apply_update_child mapState refUpdate).tree.get_instance refUpdate.id).map
        (fun i => lookupA i.properties "K") =
      some (some (RbxValue.ref
        (some ((lookupA mapState.context.snapshot_id_to_instance_id 5).getD 5)))) :=
  update_descriptor_outcome mapState refUpdate plainInstance "K"
    (some (RbxValue.ref (some 5))) (by decide) (by decide) (by decide)

/-! ### C8 fixtures: the update-existing scenario -/

/-- The root of the C8 scenario: properties Foo=7, Bar=3, Unchanged=-5. -/
def rootC8 : TreeInstance :=
  { name := "OldName"
    class_name := "OldClassName"
    properties :=
      [("Foo", RbxValue.int32 7), ("Bar", RbxValue.int32 3),
        ("Unchanged", RbxValue.int32 (-5))]
    metadata := 0
    children := [] }

/-- The one-root tree of the C8 scenario; the root's identifier is 1. -/
def treeC8 : RojoTree := { instances := [(1, rootC8)] }

/-- The C8 update request: Foo set to 8, Bar removed, Baz set to 10, new name
and class. -/
def updateC8 : PatchUpdate :=
  { id := 1
    changed_name := some "Foo"
    changed_class_name := some "NewClassName"
    changed_properties :=
      [("Foo", some (RbxValue.int32 8)), ("Bar", none), ("Baz", some (RbxValue.int32 10))]
    changed_metadata := none }

/-- The patch of the C8 scenario: one update, nothing else. -/
def patchC8 : PatchSet :=
  { removed_instances := []
    added_instances := []
    updated_instances := [updateC8] }

/-- The root instance C8 expects afterwards: properties exactly Foo=8,
Unchanged=-5, Baz=10 with the new name and class. -/
def expectedRootC8 : TreeInstance :=
  { name := "Foo"
    class_name := "NewClassName"
    properties :=
      [("Foo", RbxValue.int32 8), ("Unchanged", RbxValue.int32 (-5)),
        ("Baz", RbxValue.int32 10)]
    metadata := 0
    children := [] }

/-- The applied-update record the C8 scenario logs: the request mirrored. -/
def expectedRecordC8 : AppliedPatchUpdate :=
  { id := 1
    changed_name := some "Foo"
    changed_class_name := some "NewClassName"
    changed_properties :=
      [("Foo", some (RbxValue.int32 8)), ("Bar", none), ("Baz", some (RbxValue.int32 10))]
    changed_metadata := none }

/-- C8: applying the update `{Foo:set(8), Bar:remove, Baz:set(10)}` with new
name "Foo" and new class "NewClassName" to a root with properties
`{Foo:7, Bar:3, Unchanged:-5}` yields exactly the properties
`{Foo:8, Baz:10, Unchanged:-5}` and the new name and class; present
name/class values overwrite unconditionally. -/
theorem update_existing_scenario :
    apply_patch_set treeC8 patchC8 =
      some ({ instances := [(1, expectedRootC8)] },
        { removed := [], added := [], updated := [expectedRecordC8] }, []) := by
  decide

/-- C4: within one call the phases run in strict order — removals, then
additions, then updates, then finalization on the resulting state — and the
call always yields a change log, never an error value. -/
theorem phases_ordered_and_call_total (t : RojoTree) (p : PatchSet) :
    ∃ t' log,
      finalize_patch_application (phasePipeline t p).context (phasePipeline t p).tree =
        some (t', log) ∧
      apply_patch_set t p = some (t', log, (phasePipeline t p).warnings) := by
  obtain ⟨r, hr⟩ := Option.isSome_iff_exists.mp (pipeline_finalize_isSome t p)
  refine ⟨r.1, r.2, ?_, ?_⟩
  · simpa using hr
  · rw [apply_patch_set_eq_pipeline, hr]
    rfl

/-- C7: the finalization failure branch is unreachable — after the three
phases, every key of the deferred-property store has an instance in the tree,
so finalization's instance fetch always succeeds. -/
theorem finalization_failure_unreachable (t : RojoTree) (p : PatchSet) :
    (∀ id ∈ keysA (phasePipeline t p).context.added_instance_properties,
        ((phasePipeline t p).tree.get_instance id).isSome) ∧
      (finalize_patch_application (phasePipeline t p).context
        (phasePipeline t p).tree).isSome :=
  ⟨pipeline_deferredOk t p, pipeline_finalize_isSome t p⟩

/-- A childless snapshot with one deferred property, used to exercise the
pipeline concretely. -/
def leafSnapshot : InstanceSnapshot :=
  { snapshot_id := some 100
    metadata := 0
    name := "Leaf"
    class_name := "Folder"
    properties := [("V", RbxValue.int32 4)]
    children := [] }

/-- A patch adding `leafSnapshot` under instance 1. -/
def addLeafPatch : PatchSet :=
  { removed_instances := []
    added_instances := [{ parent_id := 1, inst := leafSnapshot }]
    updated_instances := [] }

/-! ### C9: the added log is a depth-first preorder -/

/-- Total node count of a list of addition items. -/
def addsSize : List PatchAdd → Nat
  | [] => 0
  | a :: rest => snapshotSize a.inst + addsSize rest

/-- The identifiers the addition phase mints for a whole addition list when
the next fresh identifier is `n`: one preorder block per addition item, in
order. -/
def preorderMintAdds (n : RbxId) : List PatchAdd → List RbxId
  | [] => []
  | a :: rest => preorderMint n a.inst ++ preorderMintAdds (n + snapshotSize a.inst) rest

theorem additionPhase_fresh_added (adds : List PatchAdd) :
    ∀ s : ApplyState,
      (additionPhase s adds).tree.freshId = s.tree.freshId + addsSize adds ∧
      (additionPhase s adds).context.applied_patch_set.added =
        s.context.applied_patch_set.added ++ preorderMintAdds s.tree.freshId adds := by
  induction adds with
  | nil => intro s; simp [additionPhase, addsSize, preorderMintAdds]
  | cons hd tl ih =>
    intro s
    obtain ⟨hf1, ha1⟩ := add_child_fresh_added s hd.parent_id hd.inst
    obtain ⟨hf2, ha2⟩ := ih (apply_add_child s hd.parent_id hd.inst)
    simp only [additionPhase, List.foldl_cons] at hf2 ha2 ⊢
    rw [hf1] at hf2
    rw [ha1, hf1] at ha2
    refine ⟨?_, ?_⟩
    · rw [hf2]
      simp only [addsSize]
      rw [Nat.add_assoc]
    · rw [ha2]
      simp only [preorderMintAdds]
      rw [List.append_assoc]

theorem apply_remove_instance_added (s : ApplyState) (id : RbxId) :
    (apply_remove_instance s id).context.applied_patch_set.added =
      s.context.applied_patch_set.added := by
  unfold apply_remove_instance
  cases h : s.tree.remove_instance id <;> simp

theorem removalPhase_added (ids : List RbxId) :
    ∀ s : ApplyState,
      (removalPhase s ids).context.applied_patch_set.added =
        s.context.applied_patch_set.added := by
  induction ids with
  | nil => intro s; rfl
  | cons hd tl ih =>
    intro s
    simp only [removalPhase, List.foldl_cons]
    rw [show List.foldl apply_remove_instance (apply_remove_instance s hd) tl =
      removalPhase (apply_remove_instance s hd) tl from rfl]
    rw [ih]
    exact apply_remove_instance_added s hd

theorem apply_update_child_added (s : ApplyState) (u : PatchUpdate) :
    (apply_update_child s u).context.applied_patch_set.added =
      s.context.applied_patch_set.added := by
  cases h : (metaTree s u).get_instance u.id with
  | none => rw [apply_update_child_of_missing s u h]
  | some inst0 => rw [apply_update_child_of_found s u inst0 h]

theorem updatePhase_added (ups : List PatchUpdate) :
    ∀ s : ApplyState,
      (updatePhase s ups).context.applied_patch_set.added =
        s.context.applied_patch_set.added := by
  induction ups with
  | nil => intro s; rfl
  | cons hd tl ih =>
    intro s
    simp only [updatePhase, List.foldl_cons]
    rw [show List.foldl apply_update_child (apply_update_child s hd) tl =
      updatePhase (apply_update_child s hd) tl from rfl]
    rw [ih]
    exact apply_update_child_added s hd

theorem finalize_log (ctx : PatchApplyContext) (tree : RojoTree)
    (r : RojoTree × AppliedPatchSet) (h : finalize_patch_application ctx tree = some r) :
    r.2 = ctx.applied_patch_set := by
  unfold finalize_patch_application at h
  cases hdp : applyDeferredProperties ctx tree ctx.added_instance_properties with
  | none => rw [hdp] at h; simp at h
  | some t4 =>
    rw [hdp] at h
    simp only [Option.map_some', Option.some.injEq] at h
    rw [← h]

/-- C9: the added list of the returned change log is the depth-first preorder
of the patch's addition list — each snapshot's minted identifier precedes the
identifiers of all of its child snapshots, children in declared order, one
block per addition item, starting from the first identifier minted after the
removal phase. -/
theorem added_log_is_preorder (t : RojoTree) (p : PatchSet) :
    ∃ t' log ds,
      apply_patch_set t p = some (t', log, ds) ∧
      log.added =
        preorderMintAdds (removalPhase (initialState t) p.removed_instances).tree.freshId
          p.added_instances := by
  obtain ⟨r, hr⟩ := Option.isSome_iff_exists.mp (pipeline_finalize_isSome t p)
  refine ⟨r.1, r.2, (phasePipeline t p).warnings, ?_, ?_⟩
  · rw [apply_patch_set_eq_pipeline, hr]
    rfl
  · rw [finalize_log _ _ r hr]
    unfold phasePipeline
    rw [updatePhase_added]
    obtain ⟨_, ha⟩ :=
      additionPhase_fresh_added p.added_instances
        (removalPhase (initialState t) p.removed_instances)
    rw [ha, removalPhase_added]
    simp [initialState, PatchApplyContext.default, AppliedPatchSet.default]

theorem finalization_failure_unreachable_witness :
    ((phasePipeline oneTree addLeafPatch).tree.get_instance 2).isSome ∧
      (finalize_patch_application (phasePipeline oneTree addLeafPatch).context
        (phasePipeline oneTree addLeafPatch).tree).isSome :=
  ⟨(finalization_failure_unreachable oneTree addLeafPatch).1 2 (by
      rw [show phasePipeline oneTree addLeafPatch =
        apply_add_child (initialState oneTree) 1 leafSnapshot from rfl]
      rw [apply_add_child_nil _ _ _ rfl]
      decide),
    (finalization_failure_unreachable oneTree addLeafPatch).2⟩

/-- C1: for a patch adding two sibling snapshots A (snapshot-space id s1) and
B (snapshot-space id s2) where a property of A references s2, after
apply_patch_set returns, A's instance holds that property as a reference to
the real tree-space identifier minted for B during this call (a fresh
identifier, not one that was in the tree), never the transient snapshot-space
id. -/
theorem forward_reference_resolved (t : RojoTree) (p : RbxId) (A B : InstanceSnapshot)
    (s1v s2v : RbxId) (k : String)
    (hp : p ∈ keysA t.instances)
    (hA : A.snapshot_id = some s1v) (hB : B.snapshot_id = some s2v)
    (hne : s1v ≠ s2v)
    (hAc : A.children = []) (hBc : B.children = [])
    (hnd : (keysA A.properties).Nodup)
    (hk : lookupA A.properties k = some (RbxValue.ref (some s2v))) :
    ∃ t' log ds,
      apply_patch_set t
          { removed_instances := []
            added_instances := [{ parent_id := p, inst := A }, { parent_id := p, inst := B }]
            updated_instances := [] } = some (t', log, ds) ∧
      log.added = [t.freshId, t.freshId + 1] ∧
      t.freshId + 1 ∉ keysA t.instances ∧
      (t'.get_instance t.freshId).map (fun i => lookupA i.properties k) =
        some (some (RbxValue.ref (some (t.freshId + 1)))) := by
  have hs0t : (initialState t).tree = t := rfl
  have hpipe :
      phasePipeline t
          { removed_instances := []
            added_instances := [{ parent_id := p, inst := A }, { parent_id := p, inst := B }]
            updated_instances := [] } =
        apply_add_child (apply_add_child (initialState t) p A) p B := rfl
  have hA1 : apply_add_child (initialState t) p A = (addChildBase (initialState t) p A).1 :=
    apply_add_child_nil _ _ _ hAc
  set sA := (addChildBase (initialState t) p A).1 with hsAdef
  have hB1 : apply_add_child sA p B = (addChildBase sA p B).1 :=
    apply_add_child_nil _ _ _ hBc
  set sB := (addChildBase sA p B).1 with hsBdef
  have htreeA : sA.tree = (t.insert_instance (snapshotInsertProps A) p).1 := by
    rw [hsAdef, addChildBase_tree, hs0t]
  have hfA : sA.tree.freshId = t.freshId + 1 := by
    rw [htreeA, freshId_insert]
  have htreeB : sB.tree = (sA.tree.insert_instance (snapshotInsertProps B) p).1 := by
    rw [hsBdef, addChildBase_tree]
  have hpA : p ≠ t.freshId := Nat.ne_of_lt (mem_lt_freshId t p hp)
  have hgetA_sA : sA.tree.get_instance t.freshId = some (storedInstanceOf (snapshotInsertProps A)) := by
    rw [htreeA]
    exact get_insert_fresh t _ p hp
  have hpkeysA : p ∈ keysA sA.tree.instances := by
    rw [htreeA, keysA_insert]
    simp [hp]
  have hgetB_sB : sB.tree.get_instance (t.freshId + 1) = some (storedInstanceOf (snapshotInsertProps B)) := by
    rw [htreeB]
    have h := get_insert_fresh sA.tree (snapshotInsertProps B) p hpkeysA
    rw [hfA] at h
    exact h
  have hgetA_sB : sB.tree.get_instance t.freshId = some (storedInstanceOf (snapshotInsertProps A)) := by
    rw [htreeB]
    rw [get_insert_other sA.tree _ p t.freshId (by rw [hfA]; exact Nat.ne_of_lt (Nat.lt_succ_self _)) hpA]
    exact hgetA_sA
  have hmapA : sA.context.snapshot_id_to_instance_id = [(s1v, t.freshId)] := by
    rw [hsAdef, addChildBase_map_some (initialState t) p A s1v hA]
    rfl
  have hmapB : sB.context.snapshot_id_to_instance_id = [(s1v, t.freshId), (s2v, t.freshId + 1)] := by
    rw [hsBdef, addChildBase_map_some sA p B s2v hB, hmapA, hfA]
    rw [insertA_of_not_mem _ _ _ (by simp [keysA]; exact Ne.symm hne)]
    rfl
  have hpropsA : sA.context.added_instance_properties = [(t.freshId, A.properties)] := by
    rw [hsAdef, addChildBase_props]
    rfl
  have hpropsB : sB.context.added_instance_properties =
      [(t.freshId, A.properties), (t.freshId + 1, B.properties)] := by
    rw [hsBdef, addChildBase_props, hpropsA, hfA]
    rw [insertA_of_not_mem _ _ _ (by simp [keysA])]
    rfl
  have haddA : sA.context.applied_patch_set.added = [t.freshId] := by
    rw [hsAdef, addChildBase_added]
    rfl
  have haddB : sB.context.applied_patch_set.added = [t.freshId, t.freshId + 1] := by
    rw [hsBdef, addChildBase_added, haddA, hfA]
    rfl
  have hwarnA : sA.warnings = [] := by
    rw [hsAdef, addChildBase_warnings]
    rfl
  have hwarnB : sB.warnings = [] := by
    rw [hsBdef, addChildBase_warnings, hwarnA]
  -- finalization
  have happly :
      apply_patch_set t
          { removed_instances := []
            added_instances := [{ parent_id := p, inst := A }, { parent_id := p, inst := B }]
            updated_instances := [] } =
        (finalize_patch_application sB.context sB.tree).map
          (fun r => (r.1, r.2, sB.warnings)) := by
    rw [apply_patch_set_eq_pipeline, hpipe, hA1, hB1]
  have hfinEq : finalize_patch_application sB.context sB.tree =
      (applyDeferredProperties sB.context sB.tree sB.context.added_instance_properties).map
        (fun tr => (tr, sB.context.applied_patch_set)) := rfl
  have hstep : applyDeferredProperties sB.context sB.tree
        sB.context.added_instance_properties =
      some (((sB.tree.modify_instance t.freshId (fun _ =>
          { storedInstanceOf (snapshotInsertProps A) with
            properties :=
              A.properties.foldl
                (fun ps kv => insertA ps kv.1 (resolveDeferredValue sB.context kv.2))
                (storedInstanceOf (snapshotInsertProps A)).properties })).modify_instance
          (t.freshId + 1) (fun _ =>
          { storedInstanceOf (snapshotInsertProps B) with
            properties :=
              B.properties.foldl
                (fun ps kv => insertA ps kv.1 (resolveDeferredValue sB.context kv.2))
                (storedInstanceOf (snapshotInsertProps B)).properties }))) := by
    rw [hpropsB]
    rw [applyDeferredProperties_cons sB.context sB.tree t.freshId A.properties _ _ hgetA_sB]
    rw [applyDeferredProperties_cons _ _ (t.freshId + 1) B.properties [] _ (by
      rw [get_modify_ne _ _ _ _ (Nat.ne_of_lt (Nat.lt_succ_self _))]
      exact hgetB_sB)]
    exact applyDeferredProperties_nil _ _
  obtain ⟨tFin, htFin, hgetFin⟩ :
      ∃ tFin,
        applyDeferredProperties sB.context sB.tree sB.context.added_instance_properties =
            some tFin ∧
          (tFin.get_instance t.freshId).map (fun i => lookupA i.properties k) =
            some (some (RbxValue.ref (some (t.freshId + 1)))) := by
    refine ⟨_, hstep, ?_⟩
    rw [get_modify_ne _ _ _ _ (Nat.succ_ne_self t.freshId)]
    rw [get_modify_self, hgetA_sB]
    simp only [Option.map_some']
    rw [lookupA_foldl_resolve sB.context A.properties _ k _ hnd hk]
    simp only [resolveDeferredValue, hmapB]
    simp [lookupA, hne]
  refine ⟨tFin, sB.context.applied_patch_set, sB.warnings, ?_, haddB, ?_, hgetFin⟩
  · rw [happly, hfinEq, htFin]
    rfl
  · intro hmem
    have hlt := mem_lt_freshId t _ hmem
    exact Nat.lt_irrefl _ (Nat.lt_of_succ_lt hlt)

/-- The parent-and-two-siblings forward-reference scenario: snapshot A holds a
reference to sibling snapshot-space id 200. -/
def snapA : InstanceSnapshot :=
  { snapshot_id := some 100
    metadata := 0
    name := "A"
    class_name := "Folder"
    properties := [("Target", RbxValue.ref (some 200))]
    children := [] }

/-- Sibling snapshot B of the forward-reference scenario, with snapshot-space
id 200. -/
def snapB : InstanceSnapshot :=
  { snapshot_id := some 200
    metadata := 0
    name := "B"
    class_name := "Folder"
    properties := []
    children := [] }

theorem forward_reference_resolved_witness :
    ∃ t' log ds,
      apply_patch_set oneTree
          { removed_instances := []
            added_instances :=
              [{ parent_id := 1, inst := snapA }, { parent_id := 1, inst := snapB }]
            updated_instances := [] } = some (t', log, ds) ∧
      log.added = [oneTree.freshId, oneTree.freshId + 1] ∧
      oneTree.freshId + 1 ∉ keysA oneTree.instances ∧
      (t'.get_instance oneTree.freshId).map (fun i => lookupA i.properties "Target") =
        some (some (RbxValue.ref (some (oneTree.freshId + 1)))) :=
  forward_reference_resolved oneTree 1 snapA snapB 100 200 "Target" (by decide) rfl rfl
    (by decide) rfl rfl (by decide) (by decide)

/-- C10: when a patch both adds a snapshot and updates the instance minted for
it, a property key written by the update phase that also appears in the
snapshot's deferred property mapping is overwritten at finalization by the
snapshot's translation-resolved value, while the change log's applied-update
record still reports the update's value. -/
theorem finalization_overwrites_update_value (t : RojoTree) (p : RbxId)
    (A : InstanceSnapshot) (u : PatchUpdate) (k : String) (vs vu : RbxValue)
    (hp : p ∈ keysA t.instances)
    (hAc : A.children = [])
    (hu : u.id = t.freshId)
    (hndA : (keysA A.properties).Nodup)
    (hks : lookupA A.properties k = some vs)
    (hndu : (keysA u.changed_properties).Nodup)
    (hku : lookupA u.changed_properties k = some (some vu)) :
    ∃ t' log ds,
      apply_patch_set t
          { removed_instances := []
            added_instances := [{ parent_id := p, inst := A }]
            updated_instances := [u] } = some (t', log, ds) ∧
      (t'.get_instance t.freshId).map (fun i => lookupA i.properties k) =
        some (some (resolveDeferredValue
          (phasePipeline t
            { removed_instances := []
              added_instances := [{ parent_id := p, inst := A }]
              updated_instances := [u] }).context vs)) ∧
      ∃ r, log.updated = [r] ∧ r.id = u.id ∧
        lookupA r.changed_properties k = some (some vu) := by
  have hs0t : (initialState t).tree = t := rfl
  have hpipe :
      phasePipeline t
          { removed_instances := []
            added_instances := [{ parent_id := p, inst := A }]
            updated_instances := [u] } =
        apply_update_child (apply_add_child (initialState t) p A) u := rfl
  have hA1 : apply_add_child (initialState t) p A = (addChildBase (initialState t) p A).1 :=
    apply_add_child_nil _ _ _ hAc
  set sA := (addChildBase (initialState t) p A).1 with hsAdef
  have htreeA : sA.tree = (t.insert_instance (snapshotInsertProps A) p).1 := by
    rw [hsAdef, addChildBase_tree, hs0t]
  have hgetA_sA : sA.tree.get_instance t.freshId = some (storedInstanceOf (snapshotInsertProps A)) := by
    rw [htreeA]
    exact get_insert_fresh t _ p hp
  have hpropsA : sA.context.added_instance_properties = [(t.freshId, A.properties)] := by
    rw [hsAdef, addChildBase_props]
    rfl
  have hupdA : sA.context.applied_patch_set.updated = [] := by
    rw [hsAdef, addChildBase_updated]
    rfl
  -- the update target exists
  have h0s : ((metaTree sA u).get_instance u.id).isSome := by
    apply metaTree_isSome
    rw [hu, hgetA_sA]
    rfl
  obtain ⟨inst0, h0⟩ := Option.isSome_iff_exists.mp h0s
  have hFound := apply_update_child_of_found sA u inst0 h0
  set sU := apply_update_child sA u with hsUdef
  have hwarnA : sA.warnings = [] := by
    rw [hsAdef, addChildBase_warnings]
    rfl
  have hctxU : sU.context.added_instance_properties = [(t.freshId, A.properties)] := by
    rw [hsUdef, apply_update_child_props]
    exact hpropsA
  have hupdU : sU.context.applied_patch_set.updated = [requestedAppliedUpdate u] := by
    rw [hFound]
    simp [hupdA]
  have hwarnU : sU.warnings = [] := by
    rw [hFound]
    simp [hwarnA]
  have htreeUget : sU.tree.get_instance t.freshId =
      some (finalUpdatedInstance sA.context u inst0) := by
    rw [hFound]
    simp only
    rw [← hu, get_modify_self, h0]
    rfl
  have happly :
      apply_patch_set t
          { removed_instances := []
            added_instances := [{ parent_id := p, inst := A }]
            updated_instances := [u] } =
        (finalize_patch_application sU.context sU.tree).map
          (fun r => (r.1, r.2, sU.warnings)) := by
    rw [apply_patch_set_eq_pipeline, hpipe, hA1, ← hsUdef]
  have hfinEq : finalize_patch_application sU.context sU.tree =
      (applyDeferredProperties sU.context sU.tree sU.context.added_instance_properties).map
        (fun tr => (tr, sU.context.applied_patch_set)) := rfl
  have hstep : applyDeferredProperties sU.context sU.tree
        sU.context.added_instance_properties =
      some (sU.tree.modify_instance t.freshId (fun _ =>
        { finalUpdatedInstance sA.context u inst0 with
          properties :=
            A.properties.foldl
              (fun ps kv => insertA ps kv.1 (resolveDeferredValue sU.context kv.2))
              (finalUpdatedInstance sA.context u inst0).properties })) := by
    rw [hctxU]
    rw [applyDeferredProperties_cons sU.context sU.tree t.freshId A.properties [] _ htreeUget]
    exact applyDeferredProperties_nil _ _
  obtain ⟨tFin, htFin, hgetFin⟩ :
      ∃ tFin,
        applyDeferredProperties sU.context sU.tree sU.context.added_instance_properties =
            some tFin ∧
          (tFin.get_instance t.freshId).map (fun i => lookupA i.properties k) =
            some (some (resolveDeferredValue sU.context vs)) := by
    refine ⟨_, hstep, ?_⟩
    rw [get_modify_self, htreeUget]
    simp only [Option.map_some']
    rw [lookupA_foldl_resolve sU.context A.properties _ k vs hndA hks]
  refine ⟨tFin, sU.context.applied_patch_set, sU.warnings, ?_, ?_, ?_⟩
  · rw [happly, hfinEq, htFin]
    rfl
  · rw [hpipe, hA1, ← hsUdef]
    exact hgetFin
  · refine ⟨requestedAppliedUpdate u, hupdU, rfl, ?_⟩
    simp only [requestedAppliedUpdate]
    rw [foldl_insertA_of_disjoint _ _ hndu (fun k2 _ => by simp [keysA])]
    rw [List.nil_append]
    exact hku

/-- The update of the C10 scenario: it writes key `V` of the instance the same
patch's addition phase will mint (identifier 2 over `oneTree`). -/
def overwriteUpdate : PatchUpdate :=
  { id := 2
    changed_name := none
    changed_class_name := none
    changed_properties := [("V", some (RbxValue.int32 99))]
    changed_metadata := none }

theorem finalization_overwrites_update_value_witness :
    ∃ t' log ds,
      apply_patch_set oneTree
          { removed_instances := []
            added_instances := [{ parent_id := 1, inst := leafSnapshot }]
            updated_instances := [overwriteUpdate] } = some (t', log, ds) ∧
      (t'.get_instance oneTree.freshId).map (fun i => lookupA i.properties "V") =
        some (some (resolveDeferredValue
          (phasePipeline oneTree
            { removed_instances := []
              added_instances := [{ parent_id := 1, inst := leafSnapshot }]
              updated_instances := [overwriteUpdate] }).context (RbxValue.int32 4))) ∧
      ∃ r, log.updated = [r] ∧ r.id = overwriteUpdate.id ∧
        lookupA r.changed_properties "V" = some (some (RbxValue.int32 99)) :=
  finalization_overwrites_update_value oneTree 1 leafSnapshot overwriteUpdate "V"
    (RbxValue.int32 4) (RbxValue.int32 99) (by decide) rfl (by decide) (by decide)
    (by decide) (by decide) (by decide)

end RojoPatchApply
